import Mathlib

set_option linter.unusedVariables false

namespace QDbfSpec

/-! Shallow embedding of src/src/qdbftablemodel.cpp (class QDbfTableModelPrivate and
its public wrapper QDbfTableModel).  The external record store QDbfTable is not part
of src/; its operations are modelled from the spec (section 6, "Consumed from the
record store collaborator") and are marked `Modelled from the spec:` below. -/

/-- Characters treated as whitespace by trimming (QString::trimmed). -/
def isSpaceChar (c : Char) : Bool :=
  c = ' ' || c = '\t' || c = '\n' || c = '\r'

/-- Model of QString: a list of characters. -/
abbrev QStr := List Char

/-- QString::trimmed: remove leading and trailing whitespace. -/
def qtrim (s : QStr) : QStr :=
  ((s.dropWhile isSpaceChar).reverse.dropWhile isSpaceChar).reverse

/-- Model of QVariant restricted to the value kinds the model manipulates:
the invalid (null) variant, strings, and one non-string value kind. -/
inductive Variant where
  | invalid
  | str (s : QStr)
  | intV (n : Int)
deriving DecidableEq

instance : Inhabited Variant := ⟨Variant.invalid⟩

/-- QVariant::isValid. -/
def Variant.isValid : Variant → Bool
  | .invalid => false
  | _ => true

/-- QVariant::type() == QVariant::String. -/
def Variant.isString : Variant → Bool
  | .str _ => true
  | _ => false

/-- Replace the n-th element of a list by f applied to it (no-op out of range);
models in-place element update of a QVector. -/
def listModify : List α → Nat → (α → α) → List α
  | [], _, _ => []
  | a :: l, 0, f => f a :: l
  | a :: l, n+1, f => a :: listModify l n f

/-- listModify with a C++ int index (no-op for negative indices). -/
def listModifyI (l : List α) (i : Int) (f : α → α) : List α :=
  if 0 ≤ i then listModify l i.toNat f else l

/-- Model of QDbfRecord: an ordered sequence of named, typed field values plus a
deletion flag. -/
structure QDbfRecord where
  fields : List (QStr × Variant)
  deleted : Bool
deriving DecidableEq, Inhabited

/-- QDbfRecord::count. -/
def QDbfRecord.count (r : QDbfRecord) : Int := r.fields.length

/-- QDbfRecord::value(i): the i-th field value, a null QVariant out of range. -/
def QDbfRecord.value (r : QDbfRecord) (i : Int) : Variant :=
  if 0 ≤ i then (r.fields.getD i.toNat ([], Variant.invalid)).2 else Variant.invalid

/-- QDbfRecord::fieldName(i). -/
def QDbfRecord.fieldName (r : QDbfRecord) (i : Int) : QStr :=
  if 0 ≤ i then (r.fields.getD i.toNat ([], Variant.invalid)).1 else []

/-- QDbfRecord::setValue(i, v): overwrite the i-th field value, keeping its name. -/
def QDbfRecord.setValue (r : QDbfRecord) (i : Int) (v : Variant) : QDbfRecord :=
  if 0 ≤ i then { r with fields := listModify r.fields i.toNat (fun p => (p.1, v)) } else r

/-- QDbfRecord::isDeleted. -/
def QDbfRecord.isDeleted (r : QDbfRecord) : Bool := r.deleted

/-- QDbfTable::OpenMode. -/
inductive OpenMode where
  | notOpen
  | readOnly
  | readWrite
deriving DecidableEq

/-- Modelled from the spec: the external record store QDbfTable (not under src/).
`recs` is the physical record sequence, `pos` the sequential cursor position
(-1 before the first record), `updateOk` the oracle deciding whether the store
accepts a record update, and `schema` the schema descriptor record. -/
structure QDbfTable where
  isOpen : Bool
  openMode : OpenMode
  recs : List QDbfRecord
  pos : Int
  updateOk : Bool
  schema : QDbfRecord
deriving DecidableEq

/-- Modelled from the spec: totalRecordCount() of the store (QDbfTable::size). -/
def tSize (t : QDbfTable) : Int := t.recs.length

/-- Modelled from the spec: seek(physicalPosition) -> bool, false if the store is
closed or the position is invalid; -1 (before the first record) is a valid
position, as the initial fetch resumes from bookmark -1. -/
def tSeek (t : QDbfTable) (p : Int) : Option QDbfTable :=
  if t.isOpen = true ∧ -1 ≤ p ∧ p < tSize t then some { t with pos := p } else none

/-- Modelled from the spec: advance() -> bool (QDbfTable::next), false at the end
of the traversal or when the store is closed. -/
def tNext (t : QDbfTable) : Option QDbfTable :=
  if t.isOpen = true ∧ t.pos + 1 < tSize t then some { t with pos := t.pos + 1 } else none

/-- Modelled from the spec: currentPhysicalPosition() (QDbfTable::at). -/
def tAt (t : QDbfTable) : Int := t.pos

/-- Modelled from the spec: currentRecord() (QDbfTable::record); the schema-shaped
record when the cursor is before the first record. -/
def tRecord (t : QDbfTable) : QDbfRecord :=
  if 0 ≤ t.pos then t.recs.getD t.pos.toNat t.schema else t.schema

/-- Modelled from the spec: persistRecord(Record) -> bool
(QDbfTable::updateRecordInTable, not under src/).  Per the spec a store opened
read-only rejects writes; acceptance of a write on a read-write store is the
store's own decision, modelled by the oracle field updateOk. -/
def updateRecordInTable (t : QDbfTable) (r : QDbfRecord) : Bool :=
  if t.isOpen = true ∧ t.openMode = OpenMode.readWrite ∧ t.updateOk = true then true else false

/-- Qt::DisplayRole. -/
def displayRole : Nat := 0

/-- Qt::EditRole. -/
def editRole : Nat := 2

/-- Two's-complement value of the 32-bit mask `~(Qt::DisplayRole | Qt::EditRole)`,
i.e. 2^32 - 3. -/
def roleMask32 : Nat := 4294967293

/-- Qt::Orientation. -/
inductive Axis where
  | horizontal
  | vertical
deriving DecidableEq

/-- Model of QModelIndex: validity flag plus row and column. -/
structure QModelIndex where
  valid : Bool
  row : Int
  column : Int
deriving DecidableEq

/-- The default-constructed (invalid) QModelIndex, i.e. the root of the model. -/
def rootIndex : QModelIndex := ⟨false, -1, -1⟩

/-- The notifications the model can emit. -/
inductive Sig where
  | dataChanged (tlRow tlCol brRow brCol : Int)
  | headerDataChanged (axis : Axis) (first last : Int)
  | beginInsertRows (first last : Int)
  | endInsertRows
deriving DecidableEq

/-- The private state of QDbfTableModelPrivate: the owned store handle, the
schema record m_record, the row cache m_records, the header overlay m_headers
(a vector of role-to-value hashes), m_deletedRecordsCount and m_lastRecordIndex. -/
structure ModelState where
  table : QDbfTable
  record : QDbfRecord
  records : List QDbfRecord
  headers : List (List (Nat × Variant))
  deletedRecordsCount : Int
  lastRecordIndex : Int
deriving DecidableEq

/-- QVector of records: element access via `.at` (in-range in all reachable uses). -/
def recAt (l : List QDbfRecord) (i : Int) : QDbfRecord :=
  if 0 ≤ i then l.getD i.toNat default else default

/-- QHash<int, QVariant>::value(k): stored value, or a null QVariant when absent. -/
def hashValue (h : List (Nat × Variant)) (k : Nat) : Variant :=
  match h.find? (fun p => p.1 == k) with
  | some p => p.2
  | none => Variant.invalid

/-- QHash<int, QVariant> insert-or-replace (operator[] assignment). -/
def hashInsert (h : List (Nat × Variant)) (k : Nat) (v : Variant) : List (Nat × Variant) :=
  match h with
  | [] => [(k, v)]
  | p :: tl => if p.1 == k then (k, v) :: tl else p :: hashInsert tl k v

/-- QVector<QHash<int,QVariant>>::value(i): element, or an empty hash out of range. -/
def vecValueH (hs : List (List (Nat × Variant))) (i : Int) : List (Nat × Variant) :=
  if 0 ≤ i then hs.getD i.toNat [] else []

/-- QDbfTableModelPrivate::rowCount: the live row count of the cache. -/
def rowCount (st : ModelState) : Int := st.records.length

/-- QDbfTableModelPrivate::columnCount: the schema record's field count. -/
def columnCount (st : ModelState) : Int := st.record.count

/-- QAbstractTableModel::index via hasIndex: a valid index iff the coordinates are
in range for this model; otherwise the invalid index. -/
def mkIndex (st : ModelState) (r c : Int) : QModelIndex :=
  if 0 ≤ r ∧ r < rowCount st ∧ 0 ≤ c ∧ c < columnCount st then ⟨true, r, c⟩ else rootIndex

/-- QDbfTableModelPrivate::flags, as the Qt::ItemFlags bitmask
(ItemIsSelectable = 1, ItemIsEditable = 2, ItemIsEnabled = 32). -/
def flags (st : ModelState) (idx : QModelIndex) : Nat :=
  if idx.valid = false then 32
  else
    match st.table.openMode with
    | OpenMode.readWrite => 1 ||| 32 ||| 2
    | _ => 1 ||| 32

/-- QDbfTableModelPrivate::setData: the transactional single-cell write.  Returns
the new state, the reported status and the emitted notifications. -/
def setData (st : ModelState) (idx : QModelIndex) (v : Variant) (role : Nat) :
    ModelState × Bool × List Sig :=
  if st.table.isOpen = false then (st, false, [])
  else if idx.valid = true ∧ role = editRole then
    let oldValue := (recAt st.records idx.row).value idx.column
    let records1 := listModifyI st.records idx.row (fun rec => rec.setValue idx.column v)
    if updateRecordInTable st.table (recAt records1 idx.row) = true then
      ({ st with records := records1 }, true,
        [Sig.dataChanged idx.row idx.column idx.row idx.column])
    else
      let records2 := listModifyI records1 idx.row (fun rec => rec.setValue idx.column oldValue)
      ({ st with records := records2 }, false, [])
  else (st, false, [])

/-- QDbfTableModelPrivate::data: the cell read. -/
def data (st : ModelState) (idx : QModelIndex) (role : Nat) : Variant :=
  if idx.valid = false then Variant.invalid
  else if rowCount st ≤ idx.row ∨ columnCount st ≤ idx.column then Variant.invalid
  else if role &&& roleMask32 ≠ 0 then Variant.invalid
  else
    let value := (recAt st.records idx.row).value idx.column
    if role = editRole ∧ value.isString = true then
      match value with
      | Variant.str s => Variant.str (qtrim s)
      | _ => value
    else value

/-- QDbfTableModelPrivate::setHeaderData: the overlay write. -/
def setHeaderData (st : ModelState) (sec : Int) (axis : Axis) (v : Variant) (role : Nat) :
    ModelState × Bool × List Sig :=
  if axis ≠ Axis.horizontal ∨ sec < 0 ∨ columnCount st ≤ sec then (st, false, [])
  else
    let hs :=
      if (st.headers.length : Int) ≤ sec then
        st.headers ++ List.replicate ((max (sec + 1) 16).toNat - st.headers.length) []
      else st.headers
    ({ st with headers := listModifyI hs sec (fun h => hashInsert h role v) }, true,
      [Sig.headerDataChanged Axis.horizontal sec sec])

/-- QDbfTableModelPrivate::headerData: the overlay read with its fallback chain. -/
def headerData (st : ModelState) (sec : Int) (axis : Axis) (role : Nat) : Variant :=
  if axis = Axis.horizontal then
    let v0 := hashValue (vecValueH st.headers sec) role
    let v1 :=
      if role = displayRole ∧ v0.isValid = false then
        hashValue (vecValueH st.headers sec) editRole
      else v0
    if v1.isValid = true then v1
    else if role = displayRole ∧ st.record.count > sec then
      Variant.str (st.record.fieldName sec)
    else if role = displayRole then Variant.intV (sec + 1) else Variant.invalid
  else if role = displayRole then Variant.intV (sec + 1) else Variant.invalid

/-- QDbfTableModelPrivate::canFetchMore. -/
def canFetchMore (st : ModelState) (idx : QModelIndex) : Bool :=
  if idx.valid = false ∧ st.table.isOpen = true ∧
      rowCount st + st.deletedRecordsCount < tSize st.table then true
  else false

/-- The DBF_PREFETCH batch bound. -/
def DBF_PREFETCH : Int := 255

/-- Result of the fetch traversal loop: the store handle (with its advanced
cursor), the row cache, m_deletedRecordsCount and m_lastRecordIndex. -/
structure FetchRes where
  table : QDbfTable
  records : List QDbfRecord
  dc : Int
  li : Int
deriving DecidableEq

/-- The while-loop of QDbfTableModelPrivate::fetchMore, with a fuel argument
(the store's record count suffices, as each iteration advances the cursor). -/
def fetchLoop : Nat → QDbfTable → List QDbfRecord → Int → Int → Int → Int → FetchRes
  | 0, t, rs, dc, li, _, _ => ⟨t, rs, dc, li⟩
  | fuel+1, t, rs, dc, li, fetched, fsz =>
    match tNext t with
    | none => ⟨t, rs, dc, li⟩
    | some t1 =>
      let record := tRecord t1
      if record.isDeleted = true then fetchLoop fuel t1 rs (dc + 1) li fetched fsz
      else if fetched + 1 ≥ fsz then ⟨t1, rs ++ [record], dc, tAt t1⟩
      else fetchLoop fuel t1 (rs ++ [record]) dc (tAt t1) (fetched + 1) fsz

/-- QDbfTableModelPrivate::fetchMore: seek to the bookmark, announce the insert
range, traverse a batch, announce completion.  Returns the new state and the
emitted notifications. -/
def fetchMore (st : ModelState) (idx : QModelIndex) : ModelState × List Sig :=
  if idx.valid = true then (st, [])
  else
    match tSeek st.table st.lastRecordIndex with
    | none => (st, [])
    | some t1 =>
      let fetchSize : Int := min (tSize t1 - rowCount st - st.deletedRecordsCount) DBF_PREFETCH
      let res := fetchLoop t1.recs.length t1 st.records st.deletedRecordsCount
        st.lastRecordIndex 0 fetchSize
      let st2 : ModelState :=
        { st with table := res.table, records := res.records, deletedRecordsCount := res.dc,
                  lastRecordIndex := res.li }
      (st2, [Sig.beginInsertRows (rowCount st + 1) (rowCount st + fetchSize), Sig.endInsertRows])

/-- The private state right after the QDbfTableModelPrivate constructor body:
the freshly opened (or failed-to-open) store handle, m_record from the store,
empty caches, m_deletedRecordsCount 0 and m_lastRecordIndex -1. -/
def initialState (t : QDbfTable) : ModelState :=
  { table := t, record := tRecord t, records := [], headers := [],
    deletedRecordsCount := 0, lastRecordIndex := -1 }

/-- The QDbfTableModel constructor: build the private state, then fetch once if
more data is available. -/
def construct (t : QDbfTable) : ModelState :=
  if canFetchMore (initialState t) rootIndex = true then
    (fetchMore (initialState t) rootIndex).1
  else initialState t

/-- The operations a consumer can interleave on the model. -/
inductive Op where
  | grow
  | readCell (r c : Int) (role : Nat)
  | writeCell (r c : Int) (v : Variant) (role : Nat)
  | readHeader (s : Int) (axis : Axis) (role : Nat)
  | writeHeader (s : Int) (axis : Axis) (v : Variant) (role : Nat)
  | queryRowCount
  | queryColumnCount
  | queryFlags (r c : Int)
  | queryCanGrow
deriving DecidableEq

/-- The value an operation reports back to the consumer. -/
inductive OpRet where
  | nothing
  | val (v : Variant)
  | flag (b : Bool)
  | cnt (n : Int)
deriving DecidableEq

/-- Run one operation: the new state, the emitted notifications and the reported
value.  Read-side operations are const methods of the source; they compute their
result from the state and leave it untouched. -/
def runOp (st : ModelState) : Op → ModelState × List Sig × OpRet
  | Op.grow =>
    let r := fetchMore st rootIndex
    (r.1, r.2, OpRet.nothing)
  | Op.readCell r c role => (st, [], OpRet.val (data st (mkIndex st r c) role))
  | Op.writeCell r c v role =>
    let res := setData st (mkIndex st r c) v role
    (res.1, res.2.2, OpRet.flag res.2.1)
  | Op.readHeader s axis role => (st, [], OpRet.val (headerData st s axis role))
  | Op.writeHeader s axis v role =>
    let res := setHeaderData st s axis v role
    (res.1, res.2.2, OpRet.flag res.2.1)
  | Op.queryRowCount => (st, [], OpRet.cnt (rowCount st))
  | Op.queryColumnCount => (st, [], OpRet.cnt (columnCount st))
  | Op.queryFlags r c => (st, [], OpRet.cnt (Int.ofNat (flags st (mkIndex st r c))))
  | Op.queryCanGrow => (st, [], OpRet.flag (canFetchMore st rootIndex))

/-- Whether an operation is read-side (a const method of the source). -/
def IsReadOp : Op → Bool
  | Op.readCell _ _ _ => true
  | Op.readHeader _ _ _ => true
  | Op.queryRowCount => true
  | Op.queryColumnCount => true
  | Op.queryFlags _ _ => true
  | Op.queryCanGrow => true
  | _ => false

/-- Run a sequence of operations, keeping only the final state. -/
def runOps : ModelState → List Op → ModelState
  | st, [] => st
  | st, op :: rest => runOps (runOp st op).1 rest

/-- A trace is guarded when every grow is issued only while canFetchMore holds
(this is how Qt views and the constructor drive the model). -/
def GuardedOk : ModelState → List Op → Bool
  | _, [] => true
  | st, op :: rest =>
    (if op = Op.grow then canFetchMore st rootIndex else true) && GuardedOk (runOp st op).1 rest

/-- Number of deleted records in a record list. -/
def delCount (l : List QDbfRecord) : Nat := (l.filter (fun r => r.deleted)).length

/-- Number of live records in a record list. -/
def liveCount (l : List QDbfRecord) : Nat := (l.filter (fun r => !r.deleted)).length

/-- The cache/store consistency invariant of every reachable state: some frontier
position f has been traversed and accounted; the cache holds exactly the live
records of the store prefix through f, the deleted counter exactly its deleted
records; unless the whole prefix is accounted for (the counts reach the store
size), the frontier is the bookmark m_lastRecordIndex itself, and every record
strictly between the bookmark and the frontier is deleted. -/
def InvP (st : ModelState) : Prop :=
  ∃ f : Int,
    -1 ≤ st.lastRecordIndex ∧ st.lastRecordIndex ≤ f ∧
    f ≤ (st.table.recs.length : Int) - 1 ∧
    (st.records.length : Int) = (liveCount (st.table.recs.take (f + 1).toNat) : Int) ∧
    st.deletedRecordsCount = (delCount (st.table.recs.take (f + 1).toNat) : Int) ∧
    ((st.records.length : Int) + st.deletedRecordsCount < (st.table.recs.length : Int) →
      f = st.lastRecordIndex) ∧
    (∀ j : Nat, st.lastRecordIndex < (j : Int) → (j : Int) ≤ f →
      (st.table.recs.getD j default).deleted = true)

/-- A sample one-field schema name. -/
def fldW : QStr := ['f']

/-- A sample schema record with one field. -/
def schemaW : QDbfRecord := ⟨[(fldW, Variant.invalid)], false⟩

/-- A sample live record whose single field holds a padded string. -/
def liveW : QDbfRecord := ⟨[(fldW, Variant.str [' ', 'a', ' '])], false⟩

/-- A sample deleted record. -/
def delW : QDbfRecord := ⟨[(fldW, Variant.intV 7)], true⟩

/-- An open read-write store holding one live record. -/
def tblOneLive : QDbfTable := ⟨true, OpenMode.readWrite, [liveW], -1, true, schemaW⟩

/-- An open read-write store holding one deleted record. -/
def tblOneDeleted : QDbfTable := ⟨true, OpenMode.readWrite, [delW], -1, true, schemaW⟩

/-- An open read-write store holding a live record followed by a deleted one. -/
def tblLiveDeleted : QDbfTable := ⟨true, OpenMode.readWrite, [liveW, delW], -1, true, schemaW⟩

/-- An open read-write store that rejects record updates. -/
def tblRejecting : QDbfTable := ⟨true, OpenMode.readWrite, [liveW], -1, false, schemaW⟩

/-- An open read-only store holding one live record. -/
def tblReadOnly : QDbfTable := ⟨true, OpenMode.readOnly, [liveW], -1, true, schemaW⟩

/-- A freshly constructed model over tblOneLive with an overlay edit entry
written to column 0. -/
def stHdr : ModelState :=
  (setHeaderData (construct tblOneLive) 0 Axis.horizontal (Variant.str ['N']) editRole).1

/-! Helper lemmas. -/

lemma listModify_length (l : List α) : ∀ (n : Nat) (f : α → α), (listModify l n f).length = l.length := by
  induction l with
  | nil => intro n f; cases n <;> rfl
  | cons a tl ih => intro n f; cases n with
    | zero => rfl
    | succ m => simpa [listModify] using ih m f

lemma listModifyI_length (l : List α) (i : Int) (f : α → α) :
    (listModifyI l i f).length = l.length := by
  unfold listModifyI
  split
  · exact listModify_length l i.toNat f
  · rfl

lemma getD_congr_default (l : List α) : ∀ (n : Nat) (d1 d2 : α), n < l.length →
    l.getD n d1 = l.getD n d2 := by
  induction l with
  | nil => intro n d1 d2 h; simp at h
  | cons a tl ih => intro n d1 d2 h; cases n with
    | zero => rfl
    | succ m => simpa [List.getD_cons_succ] using ih m d1 d2 (by simpa using h)

lemma take_succ_getD (l : List α) : ∀ (n : Nat) (d : α), n < l.length →
    l.take (n + 1) = l.take n ++ [l.getD n d] := by
  induction l with
  | nil => intro n d h; simp at h
  | cons a tl ih => intro n d h; cases n with
    | zero => simp
    | succ m => simpa [List.take_succ_cons] using ih m d (by simpa using h)

lemma live_add_del (l : List QDbfRecord) : liveCount l + delCount l = l.length := by
  induction l with
  | nil => rfl
  | cons a tl ih =>
    by_cases h : a.deleted = true <;> simp [liveCount, delCount, List.filter, h] at ih ⊢ <;> omega

lemma liveCount_append (l1 l2 : List QDbfRecord) :
    liveCount (l1 ++ l2) = liveCount l1 + liveCount l2 := by
  simp [liveCount, List.filter_append]

lemma delCount_append (l1 l2 : List QDbfRecord) :
    delCount (l1 ++ l2) = delCount l1 + delCount l2 := by
  simp [delCount, List.filter_append]

lemma lm_pair_restore (l : List (QStr × Variant)) : ∀ (n : Nat) (v : Variant),
    listModify (listModify l n (fun p => (p.1, v))) n
      (fun p => (p.1, (l.getD n ([], Variant.invalid)).2)) = l := by
  induction l with
  | nil => intro n v; cases n <;> rfl
  | cons a tl ih => intro n v; cases n with
    | zero => simp [listModify]
    | succ m => simpa [listModify, List.getD_cons_succ] using ih m v

lemma setValue_restore (rec : QDbfRecord) (c : Int) (v : Variant) :
    (rec.setValue c v).setValue c (rec.value c) = rec := by
  unfold QDbfRecord.setValue QDbfRecord.value
  by_cases hc : 0 ≤ c
  · simp only [if_pos hc]
    have := lm_pair_restore rec.fields c.toNat v
    simp only [this]
  · simp [if_neg hc]

lemma restore_at_nat (l : List QDbfRecord) : ∀ (n : Nat) (c : Int) (v : Variant),
    listModify (listModify l n (fun rec => rec.setValue c v)) n
      (fun rec => rec.setValue c ((l.getD n default).value c)) = l := by
  induction l with
  | nil => intro n c v; cases n <;> rfl
  | cons a tl ih => intro n c v; cases n with
    | zero => simp [listModify, setValue_restore]
    | succ m => simpa [listModify, List.getD_cons_succ] using ih m c v

lemma restore_at (l : List QDbfRecord) (r c : Int) (v : Variant) :
    listModifyI (listModifyI l r (fun rec => rec.setValue c v)) r
      (fun rec => rec.setValue c ((recAt l r).value c)) = l := by
  unfold listModifyI recAt
  by_cases hr : 0 ≤ r
  · simp only [if_pos hr]
    exact restore_at_nat l r.toNat c v
  · simp [if_neg hr]

lemma liveCount_single (r : QDbfRecord) :
    liveCount [r] = if r.deleted = true then 0 else 1 := by
  by_cases h : r.deleted = true <;> simp [liveCount, List.filter, h]

lemma delCount_single (r : QDbfRecord) :
    delCount [r] = if r.deleted = true then 1 else 0 := by
  by_cases h : r.deleted = true <;> simp [delCount, List.filter, h]

lemma liveCount_take_succ (R : List QDbfRecord) (n : Nat) (hn : n < R.length) :
    liveCount (R.take (n + 1)) =
      liveCount (R.take n) + (if (R.getD n default).deleted = true then 0 else 1) := by
  rw [take_succ_getD R n default hn, liveCount_append, liveCount_single]

lemma delCount_take_succ (R : List QDbfRecord) (n : Nat) (hn : n < R.length) :
    delCount (R.take (n + 1)) =
      delCount (R.take n) + (if (R.getD n default).deleted = true then 1 else 0) := by
  rw [take_succ_getD R n default hn, delCount_append, delCount_single]

lemma canFetchMore_root_iff (st : ModelState) :
    canFetchMore st rootIndex = true ↔
      (st.table.isOpen = true ∧ rowCount st + st.deletedRecordsCount < tSize st.table) := by
  unfold canFetchMore
  constructor
  · intro h
    split at h
    · next hc => exact ⟨hc.2.1, hc.2.2⟩
    · exact absurd h (by simp)
  · intro hc
    rw [if_pos ⟨rfl, hc.1, hc.2⟩]

lemma setData_reject_noop (st : ModelState) (r c : Int) (v : Variant)
    (hopen : st.table.isOpen = true)
    (hupd : updateRecordInTable st.table
      (recAt (listModifyI st.records r (fun rec => rec.setValue c v)) r) = false) :
    setData st ⟨true, r, c⟩ v editRole = (st, false, []) := by
  simp only [setData, hopen]
  rw [if_neg (by simp), if_pos (by simp [editRole]), if_neg (by simp [hupd])]
  rw [restore_at st.records r c v]

lemma fetchLoop_records_le : ∀ (fuel : Nat) (t : QDbfTable) (rs : List QDbfRecord)
    (dc li fetched fsz : Int),
    (fetchLoop fuel t rs dc li fetched fsz).records.length ≤
      rs.length + max 1 (fsz - fetched).toNat := by
  intro fuel
  induction fuel with
  | zero =>
    intro t rs dc li fetched fsz
    simp only [fetchLoop]
    omega
  | succ n ih =>
    intro t rs dc li fetched fsz
    unfold fetchLoop
    cases htn : tNext t with
    | none => simp only [htn]; omega
    | some t1 =>
      simp only [htn]
      by_cases hdel : (tRecord t1).isDeleted = true
      · rw [if_pos hdel]
        exact ih t1 rs (dc + 1) li fetched fsz
      · rw [if_neg hdel]
        by_cases hbreak : fetched + 1 ≥ fsz
        · rw [if_pos hbreak]
          simp only [List.length_append, List.length_cons, List.length_nil]
          omega
        · rw [if_neg hbreak]
          have h2 := ih t1 (rs ++ [tRecord t1]) dc (tAt t1) (fetched + 1) fsz
          simp only [List.length_append, List.length_cons, List.length_nil] at h2
          omega

/-- C3: canGrow/canFetchMore, queried at the root index, is true exactly when the
store is open and liveRowCount + deletedRecordsCount < storeTotalRecordCount. -/
theorem claim_C3 (st : ModelState) :
    canFetchMore st rootIndex = true ↔
      (st.table.isOpen = true ∧ rowCount st + st.deletedRecordsCount < tSize st.table) := by
  unfold canFetchMore
  constructor
  · intro h
    split at h
    · next hc => exact ⟨hc.2.1, hc.2.2⟩
    · exact absurd h (by simp)
  · intro hc
    rw [if_pos ⟨rfl, hc.1, hc.2⟩]

/-- C7: a single grow/fetchMore call appends at most DBF_PREFETCH = 255 live rows
to the row cache, regardless of how many deleted records it skips. -/
theorem claim_C7 (st : ModelState) (idx : QModelIndex) :
    ((fetchMore st idx).1.records.length : Int) ≤ rowCount st + DBF_PREFETCH := by
  unfold fetchMore
  by_cases hv : idx.valid = true
  · rw [if_pos hv]
    show ((st.records.length : Int)) ≤ rowCount st + DBF_PREFETCH
    unfold rowCount DBF_PREFETCH
    omega
  · rw [if_neg hv]
    cases hseek : tSeek st.table st.lastRecordIndex with
    | none =>
      simp only [hseek]
      show ((st.records.length : Int)) ≤ rowCount st + DBF_PREFETCH
      unfold rowCount DBF_PREFETCH
      omega
    | some t1 =>
      simp only [hseek]
      have hb := fetchLoop_records_le t1.recs.length t1 st.records st.deletedRecordsCount
        st.lastRecordIndex 0
        (min (tSize t1 - rowCount st - st.deletedRecordsCount) DBF_PREFETCH)
      have hfsz : min (tSize t1 - rowCount st - st.deletedRecordsCount) DBF_PREFETCH ≤ 255 := by
        unfold DBF_PREFETCH
        omega
      unfold rowCount DBF_PREFETCH at hb hfsz ⊢
      omega

/-- C4 (refuting evaluation): on a store holding a single live record, the
initial fetch announces the inclusive row range [1, 1] through beginInsertRows,
although the live row count before the fetch is 0; the claim (and Qt's contract
for an append) requires the announced half-open range to start at 0. -/
theorem claim_C4_bug :
    rowCount (initialState tblOneLive) = 0 ∧
    (fetchMore (initialState tblOneLive) rootIndex).2 =
      [Sig.beginInsertRows 1 1, Sig.endInsertRows] := by
  constructor
  · rfl
  · decide

/-- C10: every read-side operation (readCell/data, readHeader/headerData,
rowCount, columnCount, flags, canGrow/canFetchMore) leaves the model state
untouched (row cache, deleted counter, bookmark and header overlay included)
and emits no notification. -/
theorem claim_C10 (st : ModelState) (op : Op) (h : IsReadOp op = true) :
    (runOp st op).1 = st ∧ (runOp st op).2.1 = [] := by
  cases op <;> simp_all [IsReadOp, runOp]

/-- C10 witness: the read-side canGrow query on a concrete freshly constructed
model changes nothing and emits nothing. -/
theorem claim_C10_witness :
    IsReadOp Op.queryCanGrow = true ∧
    ((runOp (construct tblOneLive) Op.queryCanGrow).1 = construct tblOneLive ∧
      (runOp (construct tblOneLive) Op.queryCanGrow).2.1 = []) :=
  ⟨rfl, claim_C10 (construct tblOneLive) Op.queryCanGrow rfl⟩

/-- C1: a writeCell/setData on a valid in-range cell under the edit role, with
the store open: if the store rejects the record update, the tentative write is
rolled back to the captured old value (the state is exactly the pre-write state),
failure is reported and no notification fires; if the store accepts, success is
reported and exactly one dataChanged notification fires, for exactly that cell. -/
theorem claim_C1 (st : ModelState) (r c : Int) (v : Variant)
    (hopen : st.table.isOpen = true) (hr0 : 0 ≤ r) (hr : r < rowCount st)
    (hc0 : 0 ≤ c) (hc : c < columnCount st) :
    (updateRecordInTable st.table
        (recAt (listModifyI st.records r (fun rec => rec.setValue c v)) r) = false →
      setData st (mkIndex st r c) v editRole = (st, false, [])) ∧
    (updateRecordInTable st.table
        (recAt (listModifyI st.records r (fun rec => rec.setValue c v)) r) = true →
      (setData st (mkIndex st r c) v editRole).2.1 = true ∧
      (setData st (mkIndex st r c) v editRole).2.2 = [Sig.dataChanged r c r c]) := by
  have hidx : mkIndex st r c = ⟨true, r, c⟩ := by
    unfold mkIndex
    rw [if_pos ⟨hr0, hr, hc0, hc⟩]
  rw [hidx]
  constructor
  · intro hupd
    exact setData_reject_noop st r c v hopen hupd
  · intro hupd
    simp only [setData, hopen]
    rw [if_neg (by simp), if_pos (by simp [editRole]), if_pos hupd]
    exact ⟨rfl, rfl⟩

/-- C1 witness: on a concrete model over a rejecting read-write store, the write
on cell (0,0) rolls back, reports failure and emits nothing. -/
theorem claim_C1_witness :
    ((construct tblRejecting).table.isOpen = true ∧
      0 ≤ (0 : Int) ∧ (0 : Int) < rowCount (construct tblRejecting) ∧
      0 ≤ (0 : Int) ∧ (0 : Int) < columnCount (construct tblRejecting)) ∧
    (updateRecordInTable (construct tblRejecting).table
        (recAt (listModifyI (construct tblRejecting).records 0
          (fun rec => rec.setValue 0 (Variant.str ['b']))) 0) = false →
      setData (construct tblRejecting) (mkIndex (construct tblRejecting) 0 0)
        (Variant.str ['b']) editRole = (construct tblRejecting, false, [])) ∧
    (updateRecordInTable (construct tblRejecting).table
        (recAt (listModifyI (construct tblRejecting).records 0
          (fun rec => rec.setValue 0 (Variant.str ['b']))) 0) = true →
      (setData (construct tblRejecting) (mkIndex (construct tblRejecting) 0 0)
        (Variant.str ['b']) editRole).2.1 = true ∧
      (setData (construct tblRejecting) (mkIndex (construct tblRejecting) 0 0)
        (Variant.str ['b']) editRole).2.2 = [Sig.dataChanged 0 0 0 0]) :=
  ⟨⟨by decide, by decide, by decide, by decide, by decide⟩,
    claim_C1 (construct tblRejecting) 0 0 (Variant.str ['b'])
      (by decide) (by decide) (by decide) (by decide) (by decide)⟩

/-- C6: writeCell/setData is an observable no-op reporting failure whenever the
store is not open for writing (closed, or not opened read-write), the row or
column is out of range, or the role is not the edit role. -/
theorem claim_C6 (st : ModelState) (r c : Int) (v : Variant) (role : Nat)
    (h : st.table.isOpen = false ∨ st.table.openMode ≠ OpenMode.readWrite ∨
      ¬(0 ≤ r ∧ r < rowCount st ∧ 0 ≤ c ∧ c < columnCount st) ∨ role ≠ editRole) :
    setData st (mkIndex st r c) v role = (st, false, []) := by
  by_cases hopen : st.table.isOpen = false
  · simp [setData, hopen]
  · have hopen' : st.table.isOpen = true := by
      revert hopen
      cases st.table.isOpen <;> simp
    by_cases hrange : 0 ≤ r ∧ r < rowCount st ∧ 0 ≤ c ∧ c < columnCount st
    · by_cases hrole : role = editRole
      · have hmode : st.table.openMode ≠ OpenMode.readWrite := by
          rcases h with h | h | h | h
          · exact absurd h hopen
          · exact h
          · exact absurd hrange h
          · exact absurd hrole h
        have hidx : mkIndex st r c = ⟨true, r, c⟩ := by
          unfold mkIndex
          rw [if_pos hrange]
        have hupd : updateRecordInTable st.table
            (recAt (listModifyI st.records r (fun rec => rec.setValue c v)) r) = false := by
          unfold updateRecordInTable
          rw [if_neg]
          intro hcon
          exact hmode hcon.2.1
        rw [hidx, hrole]
        exact setData_reject_noop st r c v hopen' hupd
      · simp [setData, hopen', hrole]
    · have hidx : mkIndex st r c = rootIndex := by
        unfold mkIndex
        rw [if_neg hrange]
      rw [hidx]
      simp [setData, hopen', rootIndex]

/-- C6 witness: on a concrete model over a read-only store, the write on the
in-range cell (0,0) under the edit role fails and changes nothing. -/
theorem claim_C6_witness :
    ((construct tblReadOnly).table.openMode ≠ OpenMode.readWrite) ∧
    setData (construct tblReadOnly) (mkIndex (construct tblReadOnly) 0 0)
      (Variant.str ['b']) editRole = (construct tblReadOnly, false, []) :=
  ⟨by decide,
    claim_C6 (construct tblReadOnly) 0 0 (Variant.str ['b']) editRole
      (Or.inr (Or.inl (by decide)))⟩

/-- C8: the header fallback chain on the column axis: with no overlay entry for
either the requested display role or the edit role, the display read returns
the store field name when the column is within the schema field count, and the
1-based ordinal otherwise; with only an edit overlay entry, the display read
returns that edit value; a non-display role with no exact overlay entry yields
no value. -/
theorem claim_C8 (st : ModelState) (sec : Int) :
    ((hashValue (vecValueH st.headers sec) displayRole).isValid = false →
      (hashValue (vecValueH st.headers sec) editRole).isValid = false →
      sec < columnCount st →
      headerData st sec Axis.horizontal displayRole = Variant.str (st.record.fieldName sec)) ∧
    (∀ w : Variant, (hashValue (vecValueH st.headers sec) displayRole).isValid = false →
      hashValue (vecValueH st.headers sec) editRole = w → w.isValid = true →
      headerData st sec Axis.horizontal displayRole = w) ∧
    ((hashValue (vecValueH st.headers sec) displayRole).isValid = false →
      (hashValue (vecValueH st.headers sec) editRole).isValid = false →
      columnCount st ≤ sec →
      headerData st sec Axis.horizontal displayRole = Variant.intV (sec + 1)) ∧
    (∀ role : Nat, role ≠ displayRole →
      (hashValue (vecValueH st.headers sec) role).isValid = false →
      headerData st sec Axis.horizontal role = Variant.invalid) := by
  refine ⟨?_, ?_, ?_, ?_⟩
  · intro h1 h2 h3
    have h3' : st.record.count > sec := h3
    simp only [headerData]
    split_ifs <;> simp_all
  · intro w h1 h2 hw
    simp only [headerData]
    split_ifs <;> simp_all
  · intro h1 h2 h3
    have h3' : ¬(st.record.count > sec) := by
      unfold columnCount at h3
      omega
    simp only [headerData]
    split_ifs <;> simp_all
  · intro role hrole h1
    simp only [headerData]
    split_ifs <;> simp_all

/-- C8 witness: on a concrete model with an edit overlay entry on column 0, the
display read of column 0 returns the edit value, the display read of the
out-of-schema column 1 returns its 1-based ordinal, and a non-display role with
no overlay entry yields no value. -/
theorem claim_C8_witness :
    ((hashValue (vecValueH stHdr.headers 0) displayRole).isValid = false ∧
      hashValue (vecValueH stHdr.headers 0) editRole = Variant.str ['N']) ∧
    headerData stHdr 0 Axis.horizontal displayRole = Variant.str ['N'] ∧
    headerData stHdr 1 Axis.horizontal displayRole = Variant.intV 2 ∧
    headerData stHdr 0 Axis.horizontal 7 = Variant.invalid :=
  ⟨⟨by decide, by decide⟩,
    (claim_C8 stHdr 0).2.1 (Variant.str ['N']) (by decide) (by decide) (by decide),
    (claim_C8 stHdr 1).2.2.1 (by decide) (by decide) (by decide),
    (claim_C8 stHdr 0).2.2.2 7 (by decide) (by decide)⟩

/-- C9: in-range cell reads return textual values trimmed under the edit role and
untrimmed (exactly as stored) under the display role, and non-string values
unchanged under both; an out-of-range row or column, or an unsupported role,
yields no value. -/
theorem claim_C9 (st : ModelState) (r c : Int) (s : QStr) :
    (0 ≤ r → r < rowCount st → 0 ≤ c → c < columnCount st →
      (recAt st.records r).value c = Variant.str s →
      data st (mkIndex st r c) editRole = Variant.str (qtrim s) ∧
      data st (mkIndex st r c) displayRole = Variant.str s) ∧
    (0 ≤ r → r < rowCount st → 0 ≤ c → c < columnCount st →
      ((recAt st.records r).value c).isString = false →
      data st (mkIndex st r c) editRole = (recAt st.records r).value c ∧
      data st (mkIndex st r c) displayRole = (recAt st.records r).value c) ∧
    (¬(0 ≤ r ∧ r < rowCount st ∧ 0 ≤ c ∧ c < columnCount st) →
      ∀ role : Nat, data st (mkIndex st r c) role = Variant.invalid) ∧
    (∀ role : Nat, role &&& roleMask32 ≠ 0 →
      data st (mkIndex st r c) role = Variant.invalid) := by
  refine ⟨?_, ?_, ?_, ?_⟩
  · intro hr0 hr hc0 hc hstr
    have hidx : mkIndex st r c = ⟨true, r, c⟩ := by
      unfold mkIndex
      rw [if_pos ⟨hr0, hr, hc0, hc⟩]
    rw [hidx]
    constructor
    · simp only [data]
      rw [if_neg (by simp), if_neg (by omega), if_neg (by decide), hstr,
        if_pos (by exact ⟨trivial, rfl⟩)]
    · have hne : ¬(displayRole = editRole ∧ (Variant.str s).isString = true) :=
        fun hcon => absurd hcon.1 (by decide)
      simp only [data]
      rw [if_neg (by simp), if_neg (by omega), if_neg (by decide), hstr, if_neg hne]
  · intro hr0 hr hc0 hc hnstr
    have hidx : mkIndex st r c = ⟨true, r, c⟩ := by
      unfold mkIndex
      rw [if_pos ⟨hr0, hr, hc0, hc⟩]
    rw [hidx]
    have hne1 : ¬(True ∧ ((recAt st.records r).value c).isString = true) := by
      intro hcon
      rw [hnstr] at hcon
      exact absurd hcon.2 (by simp)
    have hne2 : ¬(displayRole = editRole ∧
        ((recAt st.records r).value c).isString = true) :=
      fun hcon => absurd hcon.1 (by decide)
    constructor
    · simp only [data]
      rw [if_neg (by simp), if_neg (by omega), if_neg (by decide), if_neg hne1]
    · simp only [data]
      rw [if_neg (by simp), if_neg (by omega), if_neg (by decide), if_neg hne2]
  · intro hrange role
    have hidx : mkIndex st r c = rootIndex := by
      unfold mkIndex
      rw [if_neg hrange]
    have hv : rootIndex.valid = false := rfl
    rw [hidx]
    simp only [data]
    rw [if_pos hv]
  · intro role hmask
    by_cases hrange : 0 ≤ r ∧ r < rowCount st ∧ 0 ≤ c ∧ c < columnCount st
    · have hidx : mkIndex st r c = ⟨true, r, c⟩ := by
        unfold mkIndex
        rw [if_pos hrange]
      rw [hidx]
      simp only [data]
      rw [if_neg (by simp), if_neg (by omega), if_pos hmask]
    · have hidx : mkIndex st r c = rootIndex := by
        unfold mkIndex
        rw [if_neg hrange]
      have hv : rootIndex.valid = false := rfl
      rw [hidx]
      simp only [data]
      rw [if_pos hv]

/-- C9 witness: on a concrete model whose cell (0,0) stores the padded string
" a ", the edit-role read returns the trimmed "a", the display-role read the
stored " a ", an out-of-range row yields no value, and the unsupported role 1
yields no value. -/
theorem claim_C9_witness :
    (recAt (construct tblOneLive).records 0).value 0 = Variant.str [' ', 'a', ' '] ∧
    data (construct tblOneLive) (mkIndex (construct tblOneLive) 0 0) editRole =
      Variant.str ['a'] ∧
    data (construct tblOneLive) (mkIndex (construct tblOneLive) 0 0) displayRole =
      Variant.str [' ', 'a', ' '] ∧
    data (construct tblOneLive) (mkIndex (construct tblOneLive) 5 0) displayRole =
      Variant.invalid ∧
    data (construct tblOneLive) (mkIndex (construct tblOneLive) 0 0) 1 =
      Variant.invalid :=
  ⟨by decide,
    ((claim_C9 (construct tblOneLive) 0 0 [' ', 'a', ' ']).1
      (by decide) (by decide) (by decide) (by decide) (by decide)).1,
    ((claim_C9 (construct tblOneLive) 0 0 [' ', 'a', ' ']).1
      (by decide) (by decide) (by decide) (by decide) (by decide)).2,
    (claim_C9 (construct tblOneLive) 5 0 []).2.2.1 (by decide) displayRole,
    (claim_C9 (construct tblOneLive) 0 0 []).2.2.2 1 (by decide)⟩

/-- C2 (refuting evaluation): on a store holding a single deleted record, the
constructor fetch counts the deleted record once, and one further grow call
(construction followed by a grow is an allowed interleaving in the claim)
re-counts it, making liveRowCount + deletedRecordsCount = 2 exceed the store
size 1. -/
theorem claim_C2_counterexample :
    ((runOps (construct tblOneDeleted) [Op.grow]).records.length : Int) +
      (runOps (construct tblOneDeleted) [Op.grow]).deletedRecordsCount >
      tSize (runOps (construct tblOneDeleted) [Op.grow]).table := by
  decide

/-- C5 (refuting evaluation): on a fully fetched store holding a live record
followed by a deleted one, canFetchMore is false, yet a grow call still emits
notifications and increments deletedRecordsCount by re-counting the trailing
deleted record. -/
theorem claim_C5_counterexample :
    canFetchMore (construct tblLiveDeleted) rootIndex = false ∧
    (fetchMore (construct tblLiveDeleted) rootIndex).2 ≠ [] ∧
    (fetchMore (construct tblLiveDeleted) rootIndex).1.deletedRecordsCount ≠
      (construct tblLiveDeleted).deletedRecordsCount := by
  decide

lemma fetchLoop_spec (R : List QDbfRecord) :
    ∀ (fuel : Nat) (t : QDbfTable) (rs : List QDbfRecord) (dc li fetched fsz : Int),
    t.recs = R → t.isOpen = true → -1 ≤ t.pos → t.pos ≤ (R.length : Int) - 1 →
    (rs.length : Int) = (liveCount (R.take (t.pos + 1).toNat) : Int) →
    dc = (delCount (R.take (t.pos + 1).toNat) : Int) →
    -1 ≤ li → li ≤ t.pos →
    (∀ j : Nat, li < (j : Int) → (j : Int) ≤ t.pos → (R.getD j default).deleted = true) →
    (R.length : Int) ≤ (fuel : Int) + t.pos + 1 →
    ∃ p' : Int,
      t.pos ≤ p' ∧ p' ≤ (R.length : Int) - 1 ∧
      (fetchLoop fuel t rs dc li fetched fsz).table.recs = R ∧
      ((fetchLoop fuel t rs dc li fetched fsz).records.length : Int) =
        (liveCount (R.take (p' + 1).toNat) : Int) ∧
      (fetchLoop fuel t rs dc li fetched fsz).dc =
        (delCount (R.take (p' + 1).toNat) : Int) ∧
      -1 ≤ (fetchLoop fuel t rs dc li fetched fsz).li ∧
      (fetchLoop fuel t rs dc li fetched fsz).li ≤ p' ∧
      (∀ j : Nat, (fetchLoop fuel t rs dc li fetched fsz).li < (j : Int) →
        (j : Int) ≤ p' → (R.getD j default).deleted = true) ∧
      (((fetchLoop fuel t rs dc li fetched fsz).records.length : Int) +
          (fetchLoop fuel t rs dc li fetched fsz).dc < (R.length : Int) →
        p' = (fetchLoop fuel t rs dc li fetched fsz).li) := by
  intro fuel
  induction fuel with
  | zero =>
    intro t rs dc li fetched fsz hrecs hopen hpos1 hpos2 hrs hdc hli1 hli2 hdel hfuel
    refine ⟨t.pos, le_refl _, hpos2, ?_, ?_, ?_, hli1, hli2, hdel, ?_⟩
    · exact hrecs
    · exact hrs
    · exact hdc
    · intro hlt
      exfalso
      have hend : (t.pos + 1).toNat = R.length := by omega
      rw [hend, List.take_length] at hrs hdc
      have := live_add_del R
      simp only [fetchLoop] at hlt
      omega
  | succ n ih =>
    intro t rs dc li fetched fsz hrecs hopen hpos1 hpos2 hrs hdc hli1 hli2 hdel hfuel
    by_cases hc : t.isOpen = true ∧ t.pos + 1 < tSize t
    · have htn : tNext t = some { t with pos := t.pos + 1 } := by
        unfold tNext
        rw [if_pos hc]
      have hinrange : (t.pos + 1).toNat < R.length := by
        have := hc.2
        unfold tSize at this
        rw [hrecs] at this
        omega
      have hrec : tRecord { t with pos := t.pos + 1 } = R.getD (t.pos + 1).toNat default := by
        unfold tRecord
        rw [if_pos (by simp; omega)]
        simp only []
        rw [hrecs]
        exact getD_congr_default R (t.pos + 1).toNat t.schema default hinrange
      have hcast : ((t.pos + 1).toNat : Int) = t.pos + 1 := by omega
      have hsucc : (t.pos + 1 + 1).toNat = (t.pos + 1).toNat + 1 := by omega
      have hposred : ({ t with pos := t.pos + 1 } : QDbfTable).pos = t.pos + 1 := rfl
      by_cases hdelrec : (tRecord { t with pos := t.pos + 1 }).isDeleted = true
      · have hdel' : (R.getD (t.pos + 1).toNat default).deleted = true := by
          rw [← hrec]
          exact hdelrec
        have hstep : fetchLoop (n + 1) t rs dc li fetched fsz =
            fetchLoop n { t with pos := t.pos + 1 } rs (dc + 1) li fetched fsz := by
          simp only [fetchLoop, htn]
          rw [if_pos hdelrec]
        rw [hstep]
        have hrs' : (rs.length : Int) =
            (liveCount (R.take (t.pos + 1 + 1).toNat) : Int) := by
          rw [hsucc, liveCount_take_succ R (t.pos + 1).toNat hinrange, hdel', if_pos rfl]
          omega
        have hdc' : dc + 1 = (delCount (R.take (t.pos + 1 + 1).toNat) : Int) := by
          rw [hsucc, delCount_take_succ R (t.pos + 1).toNat hinrange, hdel', if_pos rfl]
          push_cast
          omega
        have hdelafter : ∀ j : Nat, li < (j : Int) → (j : Int) ≤ t.pos + 1 →
            (R.getD j default).deleted = true := by
          intro j hj1 hj2
          by_cases hj3 : (j : Int) ≤ t.pos
          · exact hdel j hj1 hj3
          · have hje : j = (t.pos + 1).toNat := by omega
            rw [hje]
            exact hdel'
        obtain ⟨p', hp1, hp2, hq1, hq2, hq3, hq4, hq5, hq6, hq7⟩ :=
          ih { t with pos := t.pos + 1 } rs (dc + 1) li fetched fsz hrecs hopen
            (by rw [hposred]; omega) (by rw [hposred]; omega) hrs' hdc' hli1
            (by rw [hposred]; omega) hdelafter (by rw [hposred]; push_cast; omega)
        rw [hposred] at hp1
        exact ⟨p', by omega, hp2, hq1, hq2, hq3, hq4, hq5, hq6, hq7⟩
      · have hlive : (R.getD (t.pos + 1).toNat default).deleted = false := by
          rw [← hrec]
          revert hdelrec
          unfold QDbfRecord.isDeleted
          cases (tRecord { t with pos := t.pos + 1 }).deleted <;> simp
        by_cases hbreak : fetched + 1 ≥ fsz
        · have hstep : fetchLoop (n + 1) t rs dc li fetched fsz =
              ⟨{ t with pos := t.pos + 1 }, rs ++ [tRecord { t with pos := t.pos + 1 }],
                dc, tAt { t with pos := t.pos + 1 }⟩ := by
            simp only [fetchLoop, htn]
            rw [if_neg hdelrec, if_pos hbreak]
          rw [hstep]
          refine ⟨t.pos + 1, by omega, by omega, hrecs, ?_, ?_, by simp [tAt]; omega,
            by simp [tAt], ?_, ?_⟩
          · simp only [List.length_append, List.length_cons, List.length_nil]
            rw [hsucc, liveCount_take_succ R (t.pos + 1).toNat hinrange, hlive]
            push_cast
            omega
          · simp only []
            rw [hsucc, delCount_take_succ R (t.pos + 1).toNat hinrange, hlive]
            simpa using hdc
          · intro j hj1 hj2
            simp only [tAt] at hj1
            omega
          · intro _
            simp [tAt]
        · have hstep : fetchLoop (n + 1) t rs dc li fetched fsz =
              fetchLoop n { t with pos := t.pos + 1 }
                (rs ++ [tRecord { t with pos := t.pos + 1 }]) dc
                (tAt { t with pos := t.pos + 1 }) (fetched + 1) fsz := by
            simp only [fetchLoop, htn]
            rw [if_neg hdelrec, if_neg hbreak]
          rw [hstep]
          have hrs' : ((rs ++ [tRecord { t with pos := t.pos + 1 }]).length : Int) =
              (liveCount (R.take (({ t with pos := t.pos + 1 } : QDbfTable).pos + 1).toNat) : Int) := by
            simp only [List.length_append, List.length_cons, List.length_nil]
            rw [hsucc, liveCount_take_succ R (t.pos + 1).toNat hinrange, hlive]
            push_cast
            omega
          have hdc' : dc =
              (delCount (R.take (({ t with pos := t.pos + 1 } : QDbfTable).pos + 1).toNat) : Int) := by
            simp only []
            rw [hsucc, delCount_take_succ R (t.pos + 1).toNat hinrange, hlive]
            simpa using hdc
          have hdelafter : ∀ j : Nat,
              tAt { t with pos := t.pos + 1 } < (j : Int) →
              (j : Int) ≤ ({ t with pos := t.pos + 1 } : QDbfTable).pos →
              (R.getD j default).deleted = true := by
            intro j hj1 hj2
            simp only [tAt] at hj1 hj2
            omega
          obtain ⟨p', hp1, hp2, hq1, hq2, hq3, hq4, hq5, hq6, hq7⟩ :=
            ih { t with pos := t.pos + 1 } (rs ++ [tRecord { t with pos := t.pos + 1 }]) dc
              (tAt { t with pos := t.pos + 1 }) (fetched + 1) fsz hrecs hopen
              (by simp; omega) (by simp; omega) hrs' hdc' (by simp [tAt]; omega)
              (by simp [tAt]) hdelafter (by simp; push_cast; omega)
          exact ⟨p', by simp at hp1; omega, hp2, hq1, hq2, hq3, hq4, hq5, hq6, hq7⟩
    · have htn : tNext t = none := by
        unfold tNext
        rw [if_neg hc]
      have hend : t.pos = (R.length : Int) - 1 := by
        rcases not_and_or.mp hc with h | h
        · exact absurd hopen h
        · unfold tSize at h
          rw [hrecs] at h
          omega
      have hstep : fetchLoop (n + 1) t rs dc li fetched fsz = ⟨t, rs, dc, li⟩ := by
        simp only [fetchLoop, htn]
      rw [hstep]
      refine ⟨t.pos, le_refl _, hpos2, hrecs, hrs, hdc, hli1, hli2, hdel, ?_⟩
      intro hlt
      exfalso
      have hend2 : (t.pos + 1).toNat = R.length := by omega
      rw [hend2, List.take_length] at hrs hdc
      have := live_add_del R
      simp only [] at hlt
      omega

lemma fetchLoop_frozen (R : List QDbfRecord) :
    ∀ (fuel : Nat) (t : QDbfTable) (rs : List QDbfRecord) (dc li fetched fsz : Int),
    t.recs = R → -1 ≤ t.pos →
    (∀ j : Nat, t.pos < (j : Int) → j < R.length → (R.getD j default).deleted = true) →
    (fetchLoop fuel t rs dc li fetched fsz).records = rs ∧
    (fetchLoop fuel t rs dc li fetched fsz).li = li := by
  intro fuel
  induction fuel with
  | zero =>
    intro t rs dc li fetched fsz _ _ _
    exact ⟨rfl, rfl⟩
  | succ n ih =>
    intro t rs dc li fetched fsz hrecs hpos hdead
    by_cases hc : t.isOpen = true ∧ t.pos + 1 < tSize t
    · have htn : tNext t = some { t with pos := t.pos + 1 } := by
        unfold tNext
        rw [if_pos hc]
      have hinrange : (t.pos + 1).toNat < R.length := by
        have h2 := hc.2
        unfold tSize at h2
        rw [hrecs] at h2
        omega
      have hrec : tRecord { t with pos := t.pos + 1 } = R.getD (t.pos + 1).toNat default := by
        unfold tRecord
        rw [if_pos (by show (0 : Int) ≤ t.pos + 1; omega)]
        show t.recs.getD (t.pos + 1).toNat t.schema = _
        rw [hrecs]
        exact getD_congr_default R (t.pos + 1).toNat t.schema default hinrange
      have hdelrec : (tRecord { t with pos := t.pos + 1 }).isDeleted = true := by
        show (tRecord { t with pos := t.pos + 1 }).deleted = true
        rw [hrec]
        exact hdead (t.pos + 1).toNat (by omega) hinrange
      have hstep : fetchLoop (n + 1) t rs dc li fetched fsz =
          fetchLoop n { t with pos := t.pos + 1 } rs (dc + 1) li fetched fsz := by
        simp only [fetchLoop, htn]
        rw [if_pos hdelrec]
      rw [hstep]
      refine ih { t with pos := t.pos + 1 } rs (dc + 1) li fetched fsz hrecs
        (by show (-1 : Int) ≤ t.pos + 1; omega) ?_
      intro j hj1 hj2
      have hj1' : t.pos < (j : Int) := by
        have : ({ t with pos := t.pos + 1 } : QDbfTable).pos = t.pos + 1 := rfl
        omega
      exact hdead j hj1' hj2
    · have htn : tNext t = none := by
        unfold tNext
        rw [if_neg hc]
      have hstep : fetchLoop (n + 1) t rs dc li fetched fsz = ⟨t, rs, dc, li⟩ := by
        simp only [fetchLoop, htn]
      rw [hstep]
      exact ⟨rfl, rfl⟩

lemma invp_counts (st : ModelState) (h : InvP st) :
    (st.records.length : Int) + st.deletedRecordsCount ≤ tSize st.table := by
  obtain ⟨f, h1, h2, h3, h4, h5, h6, h7⟩ := h
  have hn : ((st.table.recs.take (f + 1).toNat).length : Int) = f + 1 := by
    rw [List.length_take]
    omega
  have hld := live_add_del (st.table.recs.take (f + 1).toNat)
  unfold tSize
  omega

lemma invp_initial (t : QDbfTable) : InvP (initialState t) := by
  refine ⟨-1, le_refl _, le_refl _, ?_, ?_, ?_, fun _ => rfl, ?_⟩
  · show (-1 : Int) ≤ ((initialState t).table.recs.length : Int) - 1
    have : (0 : Int) ≤ ((initialState t).table.recs.length : Int) := by positivity
    omega
  · show ((0 : Nat) : Int) = (liveCount ((initialState t).table.recs.take ((-1 : Int) + 1).toNat) : Int)
    norm_num
    rfl
  · show (0 : Int) = (delCount ((initialState t).table.recs.take ((-1 : Int) + 1).toNat) : Int)
    norm_num
    rfl
  · intro j hj1 hj2
    omega

lemma fetchMore_seek_none (st : ModelState)
    (hseek : tSeek st.table st.lastRecordIndex = none) :
    fetchMore st rootIndex = (st, []) := by
  unfold fetchMore
  rw [if_neg (by simp [rootIndex]), hseek]

lemma fetchMore_seek_some (st : ModelState) (t1 : QDbfTable)
    (hseek : tSeek st.table st.lastRecordIndex = some t1) :
    fetchMore st rootIndex =
      ({ st with
          table := (fetchLoop t1.recs.length t1 st.records st.deletedRecordsCount
            st.lastRecordIndex 0
            (min (tSize t1 - rowCount st - st.deletedRecordsCount) DBF_PREFETCH)).table,
          records := (fetchLoop t1.recs.length t1 st.records st.deletedRecordsCount
            st.lastRecordIndex 0
            (min (tSize t1 - rowCount st - st.deletedRecordsCount) DBF_PREFETCH)).records,
          deletedRecordsCount := (fetchLoop t1.recs.length t1 st.records st.deletedRecordsCount
            st.lastRecordIndex 0
            (min (tSize t1 - rowCount st - st.deletedRecordsCount) DBF_PREFETCH)).dc,
          lastRecordIndex := (fetchLoop t1.recs.length t1 st.records st.deletedRecordsCount
            st.lastRecordIndex 0
            (min (tSize t1 - rowCount st - st.deletedRecordsCount) DBF_PREFETCH)).li },
        [Sig.beginInsertRows (rowCount st + 1)
          (rowCount st + min (tSize t1 - rowCount st - st.deletedRecordsCount) DBF_PREFETCH),
         Sig.endInsertRows]) := by
  unfold fetchMore
  rw [if_neg (by simp [rootIndex]), hseek]

lemma invp_of_parts (st : ModelState) (f : Int) (R : List QDbfRecord)
    (hR : st.table.recs = R)
    (h1 : -1 ≤ st.lastRecordIndex) (h2 : st.lastRecordIndex ≤ f)
    (h3 : f ≤ (R.length : Int) - 1)
    (h4 : (st.records.length : Int) = (liveCount (R.take (f + 1).toNat) : Int))
    (h5 : st.deletedRecordsCount = (delCount (R.take (f + 1).toNat) : Int))
    (h6 : (st.records.length : Int) + st.deletedRecordsCount < (R.length : Int) →
      f = st.lastRecordIndex)
    (h7 : ∀ j : Nat, st.lastRecordIndex < (j : Int) → (j : Int) ≤ f →
      (R.getD j default).deleted = true) :
    InvP st := by
  subst hR
  exact ⟨f, h1, h2, h3, h4, h5, h6, h7⟩

lemma invp_fetchMore_guarded (st : ModelState) (h : InvP st)
    (hg : canFetchMore st rootIndex = true) : InvP (fetchMore st rootIndex).1 := by
  obtain ⟨hopen, hlt⟩ := (canFetchMore_root_iff st).1 hg
  obtain ⟨f, h1, h2, h3, h4, h5, h6, h7⟩ := h
  have hlt' : (st.records.length : Int) + st.deletedRecordsCount <
      (st.table.recs.length : Int) := hlt
  have hf : f = st.lastRecordIndex := h6 hlt'
  subst hf
  have hseek : tSeek st.table st.lastRecordIndex =
      some { st.table with pos := st.lastRecordIndex } := by
    unfold tSeek
    rw [if_pos ⟨hopen, h1, by show st.lastRecordIndex < (st.table.recs.length : Int); omega⟩]
  obtain ⟨p', hp1, hp2, hq1, hq2, hq3, hq4, hq5, hq6, hq7⟩ :=
    fetchLoop_spec st.table.recs
      ({ st.table with pos := st.lastRecordIndex } : QDbfTable).recs.length
      { st.table with pos := st.lastRecordIndex } st.records st.deletedRecordsCount
      st.lastRecordIndex 0
      (min (tSize { st.table with pos := st.lastRecordIndex } - rowCount st -
        st.deletedRecordsCount) DBF_PREFETCH)
      rfl hopen h1 (by show st.lastRecordIndex ≤ (st.table.recs.length : Int) - 1; omega)
      h4 h5 h1 (le_refl _) (fun j hj1 hj2 => absurd (lt_of_lt_of_le hj1 hj2) (lt_irrefl _))
      (by show (st.table.recs.length : Int) ≤ (st.table.recs.length : Int) + st.lastRecordIndex + 1; omega)
  rw [fetchMore_seek_some st { st.table with pos := st.lastRecordIndex } hseek]
  exact invp_of_parts _ p' st.table.recs hq1 hq4 hq5 hp2 hq2 hq3 hq7 hq6

lemma setData_frame (st : ModelState) (idx : QModelIndex) (v : Variant) (role : Nat) :
    (setData st idx v role).1.table = st.table ∧
    (setData st idx v role).1.records.length = st.records.length ∧
    (setData st idx v role).1.deletedRecordsCount = st.deletedRecordsCount ∧
    (setData st idx v role).1.lastRecordIndex = st.lastRecordIndex := by
  simp only [setData]
  by_cases h1 : st.table.isOpen = false
  · rw [if_pos h1]
    exact ⟨rfl, rfl, rfl, rfl⟩
  · rw [if_neg h1]
    by_cases h2 : idx.valid = true ∧ role = editRole
    · rw [if_pos h2]
      by_cases h3 : updateRecordInTable st.table
          (recAt (listModifyI st.records idx.row (fun rec => rec.setValue idx.column v))
            idx.row) = true
      · rw [if_pos h3]
        exact ⟨rfl, by simp [listModifyI_length], rfl, rfl⟩
      · rw [if_neg h3]
        exact ⟨rfl, by simp [listModifyI_length], rfl, rfl⟩
    · rw [if_neg h2]
      exact ⟨rfl, rfl, rfl, rfl⟩

lemma setHeaderData_frame (st : ModelState) (sec : Int) (axis : Axis) (v : Variant)
    (role : Nat) :
    (setHeaderData st sec axis v role).1.table = st.table ∧
    (setHeaderData st sec axis v role).1.records = st.records ∧
    (setHeaderData st sec axis v role).1.deletedRecordsCount = st.deletedRecordsCount ∧
    (setHeaderData st sec axis v role).1.lastRecordIndex = st.lastRecordIndex := by
  unfold setHeaderData
  split_ifs <;> simp

lemma invp_frame (st st' : ModelState) (h : InvP st)
    (ht : st'.table = st.table)
    (hr : st'.records.length = st.records.length)
    (hd : st'.deletedRecordsCount = st.deletedRecordsCount)
    (hl : st'.lastRecordIndex = st.lastRecordIndex) : InvP st' := by
  obtain ⟨f, h1, h2, h3, h4, h5, h6, h7⟩ := h
  refine ⟨f, ?_, ?_, ?_, ?_, ?_, ?_, ?_⟩
  · rw [hl]; exact h1
  · rw [hl]; exact h2
  · rw [ht]; exact h3
  · rw [hr, ht]; exact h4
  · rw [hd, ht]; exact h5
  · rw [hr, hd, ht, hl]; exact h6
  · rw [hl, ht]; exact h7

lemma invp_runOp (st : ModelState) (op : Op) (h : InvP st)
    (hg : op = Op.grow → canFetchMore st rootIndex = true) :
    InvP (runOp st op).1 := by
  cases op with
  | grow => exact invp_fetchMore_guarded st h (hg rfl)
  | writeCell r c v role =>
    have hf := setData_frame st (mkIndex st r c) v role
    exact invp_frame st _ h hf.1 hf.2.1 hf.2.2.1 hf.2.2.2
  | writeHeader s axis v role =>
    have hf := setHeaderData_frame st s axis v role
    exact invp_frame st _ h hf.1 (congrArg List.length hf.2.1) hf.2.2.1 hf.2.2.2
  | readCell r c role => exact h
  | readHeader s axis role => exact h
  | queryRowCount => exact h
  | queryColumnCount => exact h
  | queryFlags r c => exact h
  | queryCanGrow => exact h

lemma invp_runOps : ∀ (ops : List Op) (st : ModelState), InvP st →
    GuardedOk st ops = true → InvP (runOps st ops) := by
  intro ops
  induction ops with
  | nil =>
    intro st h _
    exact h
  | cons op rest ih =>
    intro st h hg
    unfold GuardedOk at hg
    rw [Bool.and_eq_true] at hg
    refine ih _ (invp_runOp st op h ?_) hg.2
    intro hop
    have hg1 := hg.1
    rw [hop, if_pos rfl] at hg1
    exact hg1

lemma invp_construct (t : QDbfTable) : InvP (construct t) := by
  unfold construct
  by_cases hc : canFetchMore (initialState t) rootIndex = true
  · rw [if_pos hc]
    exact invp_fetchMore_guarded _ (invp_initial t) hc
  · rw [if_neg hc]
    exact invp_initial t

/-- C2 (amended): after construction and any interleaving of operations in which
grow is issued only while canGrow is true, liveRowCount + deletedRecordsCount is
at most the store's total record count, and once the open store reports canGrow
false the two sides are equal. -/
theorem claim_C2 (t : QDbfTable) (ops : List Op)
    (hg : GuardedOk (construct t) ops = true) :
    ((runOps (construct t) ops).records.length : Int) +
      (runOps (construct t) ops).deletedRecordsCount ≤
      tSize (runOps (construct t) ops).table ∧
    ((runOps (construct t) ops).table.isOpen = true →
      canFetchMore (runOps (construct t) ops) rootIndex = false →
      ((runOps (construct t) ops).records.length : Int) +
        (runOps (construct t) ops).deletedRecordsCount =
        tSize (runOps (construct t) ops).table) := by
  have hi := invp_runOps ops (construct t) (invp_construct t) hg
  have hle := invp_counts _ hi
  refine ⟨hle, ?_⟩
  intro hopen hcf
  by_cases hlt : rowCount (runOps (construct t) ops) +
      (runOps (construct t) ops).deletedRecordsCount < tSize (runOps (construct t) ops).table
  · have := (canFetchMore_root_iff (runOps (construct t) ops)).2 ⟨hopen, hlt⟩
    rw [this] at hcf
    exact absurd hcf (by simp)
  · unfold rowCount at hlt
    omega

/-- C2 witness: on a concrete model over a one-record store, the trivially
guarded trace consisting of a single cell read satisfies both the bound and,
the store being open and fully fetched, the equality. -/
theorem claim_C2_witness :
    GuardedOk (construct tblOneLive) [Op.readCell 0 0 displayRole] = true ∧
    (((runOps (construct tblOneLive) [Op.readCell 0 0 displayRole]).records.length : Int) +
      (runOps (construct tblOneLive) [Op.readCell 0 0 displayRole]).deletedRecordsCount ≤
      tSize (runOps (construct tblOneLive) [Op.readCell 0 0 displayRole]).table ∧
    ((runOps (construct tblOneLive) [Op.readCell 0 0 displayRole]).table.isOpen = true →
      canFetchMore (runOps (construct tblOneLive) [Op.readCell 0 0 displayRole]) rootIndex = false →
      ((runOps (construct tblOneLive) [Op.readCell 0 0 displayRole]).records.length : Int) +
        (runOps (construct tblOneLive) [Op.readCell 0 0 displayRole]).deletedRecordsCount =
        tSize (runOps (construct tblOneLive) [Op.readCell 0 0 displayRole]).table)) :=
  ⟨by decide, claim_C2 tblOneLive [Op.readCell 0 0 displayRole] (by decide)⟩

/-- C5 (amended): on a reachable state where canGrow is false, a grow call leaves
the row cache, the bookmark and the header overlay unchanged; if the store is
closed it is a complete no-op emitting nothing, and if the store is open it
still emits the beginInsertRows/endInsertRows pair computed from the (empty)
batch. -/
theorem claim_C5 (st : ModelState) (h : InvP st)
    (hcf : canFetchMore st rootIndex = false) :
    (fetchMore st rootIndex).1.records = st.records ∧
    (fetchMore st rootIndex).1.lastRecordIndex = st.lastRecordIndex ∧
    (fetchMore st rootIndex).1.headers = st.headers ∧
    (st.table.isOpen = false → fetchMore st rootIndex = (st, [])) ∧
    (st.table.isOpen = true → (fetchMore st rootIndex).2 =
      [Sig.beginInsertRows (rowCount st + 1)
        (rowCount st + min (tSize st.table - rowCount st - st.deletedRecordsCount) DBF_PREFETCH),
       Sig.endInsertRows]) := by
  by_cases hopen : st.table.isOpen = true
  · have hge : ¬(rowCount st + st.deletedRecordsCount < tSize st.table) := by
      intro hlt
      have := (canFetchMore_root_iff st).2 ⟨hopen, hlt⟩
      rw [this] at hcf
      exact absurd hcf (by simp)
    obtain ⟨f, h1, h2, h3, h4, h5, h6, h7⟩ := h
    have hn : ((st.table.recs.take (f + 1).toNat).length : Int) = f + 1 := by
      rw [List.length_take]
      omega
    have hld := live_add_del (st.table.recs.take (f + 1).toNat)
    have hge' : ¬((st.records.length : Int) + st.deletedRecordsCount <
        (st.table.recs.length : Int)) := hge
    have hf : f = (st.table.recs.length : Int) - 1 := by omega
    have hseek : tSeek st.table st.lastRecordIndex =
        some { st.table with pos := st.lastRecordIndex } := by
      unfold tSeek
      rw [if_pos ⟨hopen, h1, by show st.lastRecordIndex < (st.table.recs.length : Int); omega⟩]
    have hdead : ∀ j : Nat,
        ({ st.table with pos := st.lastRecordIndex } : QDbfTable).pos < (j : Int) →
        j < st.table.recs.length → (st.table.recs.getD j default).deleted = true := by
      intro j hj1 hj2
      have hj1' : st.lastRecordIndex < (j : Int) := hj1
      exact h7 j hj1' (by omega)
    have hfr := fetchLoop_frozen st.table.recs
      ({ st.table with pos := st.lastRecordIndex } : QDbfTable).recs.length
      { st.table with pos := st.lastRecordIndex } st.records st.deletedRecordsCount
      st.lastRecordIndex 0
      (min (tSize { st.table with pos := st.lastRecordIndex } - rowCount st -
        st.deletedRecordsCount) DBF_PREFETCH)
      rfl h1 hdead
    rw [fetchMore_seek_some st { st.table with pos := st.lastRecordIndex } hseek]
    refine ⟨hfr.1, hfr.2, rfl, ?_, ?_⟩
    · intro hcl
      rw [hopen] at hcl
      exact absurd hcl (by simp)
    · intro _
      rfl
  · have hcl : st.table.isOpen = false := by
      revert hopen
      cases st.table.isOpen <;> simp
    have hseek : tSeek st.table st.lastRecordIndex = none := by
      unfold tSeek
      rw [if_neg]
      intro hcon
      rw [hcl] at hcon
      exact absurd hcon.1 (by simp)
    rw [fetchMore_seek_none st hseek]
    refine ⟨rfl, rfl, rfl, fun _ => rfl, ?_⟩
    intro hop
    rw [hcl] at hop
    exact absurd hop (by simp)

/-- C5 witness: on the fully fetched concrete model over a one-live-record open
store, canGrow is false and a grow call keeps the row cache, bookmark and
overlay unchanged while still emitting the empty-range insert notifications. -/
theorem claim_C5_witness :
    canFetchMore (construct tblOneLive) rootIndex = false ∧
    ((fetchMore (construct tblOneLive) rootIndex).1.records = (construct tblOneLive).records ∧
    (fetchMore (construct tblOneLive) rootIndex).1.lastRecordIndex =
      (construct tblOneLive).lastRecordIndex ∧
    (fetchMore (construct tblOneLive) rootIndex).1.headers = (construct tblOneLive).headers ∧
    ((construct tblOneLive).table.isOpen = false →
      fetchMore (construct tblOneLive) rootIndex = (construct tblOneLive, [])) ∧
    ((construct tblOneLive).table.isOpen = true →
      (fetchMore (construct tblOneLive) rootIndex).2 =
      [Sig.beginInsertRows (rowCount (construct tblOneLive) + 1)
        (rowCount (construct tblOneLive) +
          min (tSize (construct tblOneLive).table - rowCount (construct tblOneLive) -
            (construct tblOneLive).deletedRecordsCount) DBF_PREFETCH),
       Sig.endInsertRows])) :=
  ⟨by decide, claim_C5 (construct tblOneLive) (invp_construct tblOneLive) (by decide)⟩

end QDbfSpec
